import Mathlib

/-
Verification of the traversal/filtering core of `src/collect.py`
(project-structure collector).

The Python source is shallowly embedded below.  Conventions of the embedding:

* The host is modelled as POSIX: `os.sep = '/'`, so the
  `path.replace(os.sep, '/')` normalisation in `should_ignore` is the
  identity and `os.path.join` concatenates with `'/'`.
* Paths are carried as `List String` of segments; the corresponding Python
  path string is `joinPath` (segments interleaved with `'/'`), exactly what
  the chain of `os.path.join` calls builds.
* File bytes are `List Nat` (each < 256).  A file that the OS refuses to
  open/read is `FileData.unreadable err` (models `OSError` from `open`).
* Python's `str` is modelled by Lean's `String` (a list of code points).
* Recursion over the directory tree is structural on the mutual pair
  `FSDir`/`DirList`; the glob matcher and the UTF-8 decoder carry an
  explicit fuel argument to stay structural (and hence reduce by
  `decide`/`rfl`), and every wrapper supplies fuel that is provably
  sufficient (each step consumes at least one unit of the measure), so the
  fuel-0 branch is never reached from a wrapper.
-/

namespace Collect

/-! ### Basic string helpers (models of the Python `str` methods used) -/

/-- Python `str.strip()` whitespace set (ASCII part, which is all the
repository's rule files use). -/
def is_space (c : Char) : Bool :=
  c = ' ' || c = '\t' || c = '\n' || c = '\r' || c = '\x0B' || c = '\x0C'

/-- Model of Python `line.strip()`. -/
def py_strip (s : String) : String :=
  ⟨((s.data.dropWhile is_space).reverse.dropWhile is_space).reverse⟩

/-- Model of Python `str.lower()` (ASCII case folding, which covers every
name the code compares). -/
def str_lower (s : String) : String :=
  ⟨s.data.map Char.toLower⟩

/-- Model of Python `rule.endswith('/')`. -/
def ends_with_slash (s : String) : Bool :=
  s.data.getLast? = some '/'

/-- Model of Python `line.startswith('#')`. -/
def starts_with_hash (s : String) : Bool :=
  s.data.head? = some '#'

/-- Model of Python `rule.rstrip('/')`: drop every trailing `'/'`. -/
def rstrip_slash (s : String) : String :=
  ⟨(s.data.reverse.dropWhile (fun c => c = '/')).reverse⟩

/-! ### Path split / join -/

/-- Split a character list on a separator; mirrors Python `str.split(sep)`
(`[] ↦ [[]]`, separators at the ends produce empty groups). -/
def splitChars (sep : Char) : List Char → List (List Char)
  | [] => [[]]
  | c :: rest =>
    match splitChars sep rest with
    | [] => [[]]
    | g :: gs => if c = sep then [] :: g :: gs else (c :: g) :: gs

/-- Interleave groups with a separator (inverse of `splitChars` on
separator-free groups). -/
def intercalateChars (sep : Char) : List (List Char) → List Char
  | [] => []
  | [g] => g
  | g :: g2 :: gs => g ++ sep :: intercalateChars sep (g2 :: gs)

/-- The path string built from segments by the `os.path.join` chain
(POSIX separator). -/
def joinPath (segs : List String) : String :=
  ⟨intercalateChars '/' (segs.map String.data)⟩

/-- Model of Python `path.split('/')`. -/
def py_split (p : String) : List String :=
  (splitChars '/' p.data).map String.mk

/-! ### `fnmatch.fnmatch` (POSIX, where `normcase` is the identity) -/

/-- Membership of a character in the body of a `[...]` bracket class
(`a-b` ranges, with a trailing `-` taken literally). -/
def class_mem (c : Char) : List Char → Bool
  | [] => false
  | [a] => c = a
  | [a, b] => c = a || c = b
  | a :: '-' :: b :: rest => (a ≤ c && c ≤ b) || class_mem c rest
  | a :: rest => c = a || class_mem c rest

/-- Scan for the closing `']'` of a bracket class; returns the class body
and the remaining pattern, or `none` when the class is unterminated (in
which case `fnmatch` treats `'['` as a literal). -/
def scan_close (acc : List Char) : List Char → Option (List Char × List Char)
  | [] => none
  | ']' :: rest => some (acc.reverse, rest)
  | c :: rest => scan_close (c :: acc) rest

/-- Glob matching of a pattern against a whole string (`*`, `?`, `[...]`),
mirroring `fnmatch.fnmatch` on POSIX.  `fuel` is a structural termination
measure; every recursive call strictly decreases `pattern.length +
string.length`, so `fnmatch` below always supplies enough. -/
def fnmatch_fuel : Nat → List Char → List Char → Bool
  | 0, _, _ => false
  | _ + 1, [], s => s.isEmpty
  | fuel + 1, '*' :: ps, s =>
    fnmatch_fuel fuel ps s ||
      (match s with
       | [] => false
       | _ :: s2 => fnmatch_fuel fuel ('*' :: ps) s2)
  | fuel + 1, '?' :: ps, s =>
    match s with
    | [] => false
    | _ :: s2 => fnmatch_fuel fuel ps s2
  | fuel + 1, '[' :: ps, s =>
    let (neg, body0) := match ps with
      | '!' :: t => (true, t)
      | _ => (false, ps)
    let scanned := match body0 with
      | ']' :: t => scan_close [']'] t
      | t => scan_close [] t
    (match scanned with
     | some (body, ps2) =>
       (match s with
        | [] => false
        | c :: s2 => (class_mem c body != neg) && fnmatch_fuel fuel ps2 s2)
     | none =>
       (match s with
        | [] => false
        | c :: s2 => c = '[' && fnmatch_fuel fuel ps s2))
  | fuel + 1, p :: ps, s =>
    match s with
    | [] => false
    | c :: s2 => p = c && fnmatch_fuel fuel ps s2

/-- Model of `fnmatch.fnmatch(path, rule)` on POSIX. -/
def fnmatch (path : String) (pat : String) : Bool :=
  fnmatch_fuel (pat.data.length + path.data.length + 1) pat.data path.data

/-! ### Ignore rules (`load_gitignore_rules`, `should_ignore`) -/

/-- Model of `load_gitignore_rules` (src/collect.py lines 6-26).  The
filesystem read is abstracted as `none` (the `.gitignore` file does not
exist) or `some lines` (the file's lines).  The `.git/` rule is appended
unconditionally. -/
def load_gitignore_rules (fileLines : Option (List String)) : List String :=
  (match fileLines with
   | none => []
   | some lines =>
     ((lines.map py_strip).filter
       (fun l => l ≠ "" && !starts_with_hash l))) ++ [".git/"]

/-- Matching of one rule, as in the loop body of `should_ignore`
(src/collect.py lines 41-48): a rule ending in `'/'` matches when some
`'/'`-separated segment of the path equals the rule with trailing slashes
stripped; any other rule is a whole-path glob. -/
def rule_matches (path : String) (rule : String) : Bool :=
  if ends_with_slash rule then
    (py_split path).any (fun part => part = rstrip_slash rule)
  else
    fnmatch path rule

/-- Model of `should_ignore` (src/collect.py lines 29-49).  The
`path.replace(os.sep, '/')` normalisation is the identity on the POSIX
host modelled here. -/
def should_ignore (path : String) (ignore_rules : List String) : Bool :=
  ignore_rules.any (fun rule => rule_matches path rule)

/-! ### Extension classification -/

/-- Model of `is_text_file` (src/collect.py lines 52-64).  Defined in the
source but never called by `collect_files`; included for completeness. -/
def is_text_file (file_name : String) : Bool :=
  [".txt", ".py", ".html", ".css", ".js", ".md", ".json", ".xml", ".yml",
   ".ini", ".cfg", ".conf"].any (fun ext => file_name.endsWith ext)

/-- The denylist of non-text extensions (src/collect.py line 82). -/
def non_text_exts : List String :=
  [".png", ".jpg", ".jpeg", ".gif", ".bmp", ".tiff", ".ico", ".svg", ".log",
   ".webp", ".ai", ".ttf", ".woff", ".woff2", ".eot"]

/-- Model of `os.path.splitext(file_name)[1]` for a bare file name: the
suffix from the last `'.'`, unless every character before that dot is
itself a dot (so `".gitignore"` has no extension). -/
def splitext_ext (name : String) : String :=
  let cs := name.data
  match ((cs.enum.filter (fun p => p.2 = '.')).map Prod.fst).getLast? with
  | none => ""
  | some i => if (cs.take i).any (fun c => c ≠ '.') then ⟨cs.drop i⟩ else ""

/-- The test on src/collect.py line 95:
`file_extension in non_text_extensions or file_name.lower() == 'get-pip.py'`. -/
def is_nontext_file (file_name : String) : Bool :=
  non_text_exts.contains (str_lower (splitext_ext file_name)) ||
    str_lower file_name = "get-pip.py"

/-! ### CPython UTF-8 decoding with `errors='ignore'`

`open(path, 'r', encoding='utf-8', errors='ignore')` followed by `read()`
decodes the file's raw bytes; every byte span that is not a valid UTF-8
sequence is silently dropped (the `ignore` error handler), so the decode
never raises.  The decoder below mirrors CPython's: multi-byte sequences
with the standard continuation ranges (`0xE0`/`0xED`/`0xF0`/`0xF4` have
restricted second bytes, which excludes overlong forms and surrogates),
and on an invalid sequence the maximal valid prefix is dropped and
decoding resumes at the offending byte.  `fuel` makes the recursion
structural; each step consumes at least one byte, so `bytes.length` fuel
suffices and the wrapper below supplies exactly that. -/

/-- Is `b` a UTF-8 continuation byte? -/
def is_cont (b : Nat) : Bool := 0x80 ≤ b && b ≤ 0xBF

/-- Fuelled UTF-8 decode with the `ignore` error handler. -/
def utf8_fuel : Nat → List Nat → List Char
  | 0, _ => []
  | _ + 1, [] => []
  | fuel + 1, b :: rest =>
    if b < 0x80 then Char.ofNat b :: utf8_fuel fuel rest
    else if b < 0xC2 then utf8_fuel fuel rest
    else if b ≤ 0xDF then
      match rest with
      | [] => []
      | c1 :: rest1 =>
        if is_cont c1 then
          Char.ofNat ((b - 0xC0) * 0x40 + (c1 - 0x80)) :: utf8_fuel fuel rest1
        else utf8_fuel fuel rest
    else if b ≤ 0xEF then
      match rest with
      | [] => []
      | c1 :: rest1 =>
        if (if b = 0xE0 then 0xA0 ≤ c1 && c1 ≤ 0xBF
            else if b = 0xED then 0x80 ≤ c1 && c1 ≤ 0x9F
            else is_cont c1) then
          match rest1 with
          | [] => []
          | c2 :: rest2 =>
            if is_cont c2 then
              Char.ofNat ((b - 0xE0) * 0x1000 + (c1 - 0x80) * 0x40 + (c2 - 0x80))
                :: utf8_fuel fuel rest2
            else utf8_fuel fuel rest1
        else utf8_fuel fuel rest
    else if b ≤ 0xF4 then
      match rest with
      | [] => []
      | c1 :: rest1 =>
        if (if b = 0xF0 then 0x90 ≤ c1 && c1 ≤ 0xBF
            else if b = 0xF4 then 0x80 ≤ c1 && c1 ≤ 0x8F
            else is_cont c1) then
          match rest1 with
          | [] => []
          | c2 :: rest2 =>
            if is_cont c2 then
              match rest2 with
              | [] => []
              | c3 :: rest3 =>
                if is_cont c3 then
                  Char.ofNat ((b - 0xF0) * 0x40000 + (c1 - 0x80) * 0x1000 +
                      (c2 - 0x80) * 0x40 + (c3 - 0x80)) :: utf8_fuel fuel rest3
                else utf8_fuel fuel rest2
            else utf8_fuel fuel rest1
        else utf8_fuel fuel rest
    else utf8_fuel fuel rest

/-- CPython `bytes.decode('utf-8', 'ignore')`: total, never raises. -/
def utf8_decode_ignore (bytes : List Nat) : List Char :=
  utf8_fuel bytes.length bytes

/-! ### Per-file reading (src/collect.py lines 100-112) -/

/-- A file's payload as the OS delivers it: raw bytes, or an `OSError`
(permission denied, vanished mid-walk, ...) when `open`/`read` fails. -/
inductive FileData where
  | bytes (bs : List Nat)
  | unreadable (err : String)
deriving DecidableEq

/-- The possible outcomes of the `open(...)`/`read()` expression on
src/collect.py lines 103-104: a decoded string, an `OSError`, or a
`UnicodeDecodeError`. -/
inductive ReadOutcome where
  | ok (s : String)
  | osError (err : String)
  | unicodeError
deriving DecidableEq

/-- The `open(full_file_path, 'r', encoding='utf-8', errors='ignore')` +
`file.read()` step.  With the `ignore` error handler the decode is total,
so `unicodeError` is never produced; an unreadable file surfaces as
`osError`. -/
def py_open_read_utf8_ignore (fd : FileData) : ReadOutcome :=
  match fd with
  | .bytes bs => .ok ⟨utf8_decode_ignore bs⟩
  | .unreadable err => .osError err

/-- A file entry's content as recorded by `collect_files`, or a pending
uncaught exception. -/
inductive TextResult where
  | content (s : String)
  | osFault (err : String)
deriving DecidableEq

/-- Placeholder for denylisted files (src/collect.py line 99). -/
def nontext_placeholder : String := "Content ignored due to file type or rules"

/-- Placeholder of the `except UnicodeDecodeError` handler
(src/collect.py line 112). -/
def decode_error_placeholder : String := "Content ignored due to decoding error"

/-- The `try`/`except UnicodeDecodeError` block (src/collect.py lines
102-112): a decoded string is stored as content; a `UnicodeDecodeError`
would be replaced by the placeholder; an `OSError` is NOT caught and
propagates (`osFault`). -/
def handle_read (fd : FileData) : TextResult :=
  match py_open_read_utf8_ignore fd with
  | .ok s => .content s
  | .unicodeError => .content decode_error_placeholder
  | .osError err => .osFault err

/-! ### The directory tree and `collect_files` (src/collect.py lines 67-114) -/

/- A directory: named subdirectories (in enumeration order) and named
files.  `DirList` is an explicit list of named subdirectories; the mutual
form keeps all recursion over the tree structural. -/
mutual
inductive FSDir where
  | mk (dirs : DirList) (files : List (String × FileData))
inductive DirList where
  | nil : DirList
  | cons (name : String) (sub : FSDir) (rest : DirList) : DirList
end

/-- The per-file loop body (src/collect.py lines 88-112) over one
directory's files.  `relative_file_path` is `os.path.relpath(full, start)`,
i.e. the join of the segments below the start; the stored path is the full
path.  Denylisted names get the placeholder without any read; other files
go through `handle_read`. -/
def process_files (ignore_rules : List String) (output_filename : String)
    (startSegs rel : List String) (files : List (String × FileData)) :
    List (List String × TextResult) :=
  files.filterMap (fun nf =>
    let relFile := joinPath (rel ++ [nf.1])
    if relFile = output_filename then none
    else if should_ignore relFile ignore_rules then none
    else if is_nontext_file nf.1 then
      some (startSegs ++ rel ++ [nf.1], .content nontext_placeholder)
    else
      some (startSegs ++ rel ++ [nf.1], handle_read nf.2))

/- The fused `os.walk` loop of `collect_files`: visit a directory (keyed
by its full path when it contributes at least one file entry, as the dict
only gains the key on the first append), then recurse into the surviving
subdirectories in order.  The `dirs[:] = [d for d in dirs if not
should_ignore(os.path.join(root, d), ignore_rules)]` pruning
(src/collect.py line 86) — note it tests the full joined path, not the
path relative to the start — appears in `walk_list` as skipping each
pruned subdirectory, which yields the same traversal as filtering the list
first and then descending into every survivor. -/
mutual
def walk_dir (ignore_rules : List String) (output_filename : String)
    (startSegs : List String) (rel : List String) :
    FSDir → List (List String × List (List String × TextResult))
  | .mk dirs files =>
    let entries := process_files ignore_rules output_filename startSegs rel files
    (if entries.isEmpty then [] else [(startSegs ++ rel, entries)]) ++
      walk_list ignore_rules output_filename startSegs rel dirs
def walk_list (ignore_rules : List String) (output_filename : String)
    (startSegs : List String) (rel : List String) :
    DirList → List (List String × List (List String × TextResult))
  | .nil => []
  | .cons name sub rest =>
    (if should_ignore (joinPath (startSegs ++ rel ++ [name])) ignore_rules then []
     else walk_dir ignore_rules output_filename startSegs (rel ++ [name]) sub) ++
      walk_list ignore_rules output_filename startSegs rel rest
end

/-- The walk of `collect_files` starting at the root. -/
def walk_collect (startSegs : List String) (ignore_rules : List String)
    (output_filename : String) (fs : FSDir) :
    List (List String × List (List String × TextResult)) :=
  walk_dir ignore_rules output_filename startSegs [] fs

/-- All file entries of a walk result, in emission order. -/
def walk_entries (s : List (List String × List (List String × TextResult))) :
    List (List String × TextResult) :=
  (s.map Prod.snd).flatten

/-- The file entries produced by a full run. -/
def collect_entries (startSegs : List String) (ignore_rules : List String)
    (output_filename : String) (fs : FSDir) : List (List String × TextResult) :=
  walk_entries (walk_collect startSegs ignore_rules output_filename fs)

/-- The first pending uncaught `OSError` of the run, in emission order. -/
def find_fault (entries : List (List String × TextResult)) : Option String :=
  (entries.filterMap (fun e =>
    match e.2 with
    | .osFault err => some err
    | .content _ => none)).head?

/-- Model of `collect_files` (src/collect.py lines 67-114).  In Python an
unreadable text file raises an uncaught `OSError` out of `collect_files`,
so the caller observes either the finished structure or the first such
exception and no structure at all; `Except` captures exactly those two
observations. -/
def collect_files (startSegs : List String) (ignore_rules : List String)
    (output_filename : String) (fs : FSDir) :
    Except String (List (List String × List (List String × String))) :=
  let raw := walk_collect startSegs ignore_rules output_filename fs
  match find_fault (walk_entries raw) with
  | some err => .error err
  | none =>
    .ok (raw.map (fun g => (g.1, g.2.map (fun e =>
      (e.1, match e.2 with
            | .content c => c
            | .osFault err => err)))))

/- The sequence of directories visited (descended into) by the walk, as
paths relative to the start; mirrors the roots yielded by `os.walk` under
the same pruning as `walk_dir`/`walk_list`. -/
mutual
def visited_dir (ignore_rules : List String) (startSegs : List String)
    (rel : List String) : FSDir → List (List String)
  | .mk dirs _ => rel :: visited_list ignore_rules startSegs rel dirs
def visited_list (ignore_rules : List String) (startSegs : List String)
    (rel : List String) : DirList → List (List String)
  | .nil => []
  | .cons name sub rest =>
    (if should_ignore (joinPath (startSegs ++ rel ++ [name])) ignore_rules then []
     else visited_dir ignore_rules startSegs (rel ++ [name]) sub) ++
      visited_list ignore_rules startSegs rel rest
end

/-- The directories visited by a full run (relative to the start). -/
def walk_visited (startSegs : List String) (ignore_rules : List String)
    (fs : FSDir) : List (List String) :=
  visited_dir ignore_rules startSegs [] fs

/-! ### Lemmas about splitting and joining paths -/

theorem splitChars_ne_nil (sep : Char) (l : List Char) : splitChars sep l ≠ [] := by
  induction l with
  | nil => simp [splitChars]
  | cons c rest ih =>
    simp only [splitChars]
    split
    · simp
    · split <;> simp

theorem intercalateChars_concat (sep : Char) (l : List (List Char)) (x : List Char)
    (h : l ≠ []) :
    intercalateChars sep (l ++ [x]) = intercalateChars sep l ++ sep :: x := by
  induction l with
  | nil => exact absurd rfl h
  | cons g gs ih =>
    cases gs with
    | nil => simp [intercalateChars]
    | cons g2 gs2 =>
      have hih := ih (by simp)
      calc intercalateChars sep ((g :: g2 :: gs2) ++ [x])
          = g ++ sep :: intercalateChars sep ((g2 :: gs2) ++ [x]) := rfl
        _ = g ++ sep :: (intercalateChars sep (g2 :: gs2) ++ sep :: x) := by rw [hih]
        _ = intercalateChars sep (g :: g2 :: gs2) ++ sep :: x := by
            simp [intercalateChars]

theorem splitChars_append_sep (sep : Char) (a b : List Char) :
    splitChars sep (a ++ sep :: b) = splitChars sep a ++ splitChars sep b := by
  induction a with
  | nil =>
    simp only [List.nil_append, splitChars]
    cases h : splitChars sep b with
    | nil => exact absurd h (splitChars_ne_nil sep b)
    | cons g gs => simp
  | cons c a2 ih =>
    cases h : splitChars sep a2 with
    | nil => exact absurd h (splitChars_ne_nil sep a2)
    | cons g gs =>
      cases hb : splitChars sep b with
      | nil => exact absurd hb (splitChars_ne_nil sep b)
      | cons g2 gs2 =>
        simp only [List.cons_append, splitChars, List.append_eq, ih, h, hb,
          List.cons_append]
        split <;> simp

theorem splitChars_of_not_mem (sep : Char) (l : List Char)
    (h : ∀ c ∈ l, c ≠ sep) : splitChars sep l = [l] := by
  induction l with
  | nil => rfl
  | cons c rest ih =>
    have hc : c ≠ sep := h c (by simp)
    have hr := ih (fun x hx => h x (by simp [hx]))
    simp [splitChars, hr, hc]

theorem string_mk_data (s : String) : String.mk s.data = s := rfl

theorem py_split_joinPath_concat (xs : List String) (d : String) (hxs : xs ≠ []) :
    py_split (joinPath (xs ++ [d])) = py_split (joinPath xs) ++ py_split d := by
  show (splitChars '/' (intercalateChars '/' ((xs ++ [d]).map String.data))).map String.mk = _
  rw [List.map_append]
  simp only [List.map_cons, List.map_nil]
  rw [intercalateChars_concat _ _ _ (by simpa using hxs)]
  rw [splitChars_append_sep]
  simp [py_split, joinPath, List.map_append]

theorem py_split_single (d : String) (h : ∀ c ∈ d.data, c ≠ '/') :
    py_split d = [d] := by
  show (splitChars '/' d.data).map String.mk = [d]
  rw [splitChars_of_not_mem _ _ h]
  simp [string_mk_data]

theorem mem_py_split_joinPath_concat (xs : List String) (d : String)
    (h : ∀ c ∈ d.data, c ≠ '/') : d ∈ py_split (joinPath (xs ++ [d])) := by
  cases xs with
  | nil =>
    have : joinPath [d] = d := by
      show String.mk (intercalateChars '/' ([d].map String.data)) = d
      exact string_mk_data d
    rw [List.nil_append, this, py_split_single d h]
    simp
  | cons x xs2 =>
    rw [py_split_joinPath_concat _ _ (by simp)]
    rw [py_split_single d h]
    simp

/-! ### Lemmas about `should_ignore` -/

theorem should_ignore_true_of (path : String) (rules : List String) (rule : String)
    (hr : rule ∈ rules) (hm : rule_matches path rule = true) :
    should_ignore path rules = true :=
  List.any_eq_true.mpr ⟨rule, hr, hm⟩

theorem should_ignore_false_rule (path : String) (rules : List String) (rule : String)
    (h : should_ignore path rules = false) (hr : rule ∈ rules) :
    rule_matches path rule = false := by
  have := List.any_eq_false.mp h rule hr
  simpa using this

theorem rule_matches_of_mem_split (path rule : String)
    (hslash : ends_with_slash rule = true) (part : String)
    (hpart : part ∈ py_split path) (heq : part = rstrip_slash rule) :
    rule_matches path rule = true := by
  unfold rule_matches
  rw [if_pos (by simp [hslash])]
  exact List.any_eq_true.mpr ⟨part, hpart, by simp [heq]⟩

theorem not_rule_matches_dir (path rule : String)
    (h : rule_matches path rule = false) (hslash : ends_with_slash rule = true) :
    ∀ part ∈ py_split path, part ≠ rstrip_slash rule := by
  unfold rule_matches at h
  rw [if_pos (by simp [hslash])] at h
  intro part hp
  have := List.any_eq_false.mp h part hp
  simpa using this

/-! ### The walk invariant: every emitted entry passed the per-file guards -/

theorem walk_entries_append (a b : List (List String × List (List String × TextResult))) :
    walk_entries (a ++ b) = walk_entries a ++ walk_entries b := by
  simp [walk_entries]

theorem mem_walk_entries_of (s : List (List String × List (List String × TextResult)))
    (g : List String × List (List String × TextResult))
    (e : List String × TextResult) (hg : g ∈ s) (he : e ∈ g.2) :
    e ∈ walk_entries s := by
  simp only [walk_entries, List.mem_flatten, List.mem_map]
  exact ⟨g.2, ⟨g, hg, rfl⟩, he⟩

theorem mem_process_files (ignore_rules : List String) (output_filename : String)
    (startSegs rel : List String) (files : List (String × FileData))
    (e : List String × TextResult)
    (h : e ∈ process_files ignore_rules output_filename startSegs rel files) :
    ∃ fname fd, (fname, fd) ∈ files ∧
      e.1 = startSegs ++ rel ++ [fname] ∧
      joinPath (rel ++ [fname]) ≠ output_filename ∧
      should_ignore (joinPath (rel ++ [fname])) ignore_rules = false ∧
      ((is_nontext_file fname = true ∧ e.2 = TextResult.content nontext_placeholder) ∨
       (is_nontext_file fname = false ∧ e.2 = handle_read fd)) := by
  obtain ⟨nf, hnf, heq⟩ := List.mem_filterMap.mp h
  refine ⟨nf.1, nf.2, hnf, ?_⟩
  dsimp only at heq
  by_cases h1 : joinPath (rel ++ [nf.1]) = output_filename
  · rw [if_pos h1] at heq; cases heq
  rw [if_neg h1] at heq
  by_cases h2 : should_ignore (joinPath (rel ++ [nf.1])) ignore_rules = true
  · rw [if_pos (by simp [h2])] at heq; cases heq
  rw [if_neg (by simpa using h2)] at heq
  by_cases h3 : is_nontext_file nf.1 = true
  · rw [if_pos (by simp [h3])] at heq
    cases heq
    exact ⟨rfl, h1, by simpa using h2, Or.inl ⟨h3, rfl⟩⟩
  · rw [if_neg (by simpa using h3)] at heq
    cases heq
    exact ⟨rfl, h1, by simpa using h2, Or.inr ⟨by simpa using h3, rfl⟩⟩

/-- The invariant every emitted file entry satisfies: its full path splits
as `start ++ r ++ [fname]`, the relative path `r ++ [fname]` survived the
output-file and `should_ignore` guards, and its content is the denylist
placeholder (denylisted name) or the outcome of the read (otherwise). -/
def EntryInv (ignore_rules : List String) (output_filename : String)
    (startSegs : List String) (e : List String × TextResult) : Prop :=
  ∃ r fname fd,
    e.1 = startSegs ++ r ++ [fname] ∧
    joinPath (r ++ [fname]) ≠ output_filename ∧
    should_ignore (joinPath (r ++ [fname])) ignore_rules = false ∧
    ((is_nontext_file fname = true ∧ e.2 = TextResult.content nontext_placeholder) ∨
     (is_nontext_file fname = false ∧ e.2 = handle_read fd))

theorem walk_dir_inv (ignore_rules : List String) (output_filename : String)
    (startSegs : List String) :
    ∀ t : FSDir, ∀ rel e,
      e ∈ walk_entries (walk_dir ignore_rules output_filename startSegs rel t) →
      EntryInv ignore_rules output_filename startSegs e :=
  @FSDir.rec
    (fun t => ∀ rel e,
      e ∈ walk_entries (walk_dir ignore_rules output_filename startSegs rel t) →
      EntryInv ignore_rules output_filename startSegs e)
    (fun l => ∀ rel e,
      e ∈ walk_entries (walk_list ignore_rules output_filename startSegs rel l) →
      EntryInv ignore_rules output_filename startSegs e)
    (fun dirs files ihdirs => by
      intro rel e he
      rw [walk_dir, walk_entries_append] at he
      rcases List.mem_append.mp he with h | h
      · by_cases hemp :
          (process_files ignore_rules output_filename startSegs rel files).isEmpty = true
        · rw [if_pos hemp] at h
          simp [walk_entries] at h
        · rw [if_neg (by simpa using hemp)] at h
          simp only [walk_entries, List.map_cons, List.map_nil, List.flatten_cons,
            List.flatten_nil, List.append_nil] at h
          obtain ⟨fname, fd, _, h1, h2, h3, h4⟩ :=
            mem_process_files ignore_rules output_filename startSegs rel files e h
          exact ⟨rel, fname, fd, h1, h2, h3, h4⟩
      · exact ihdirs rel e h)
    (fun rel e he => by simp [walk_list, walk_entries] at he)
    (fun name sub rest ihsub ihrest => by
      intro rel e he
      rw [walk_list, walk_entries_append] at he
      rcases List.mem_append.mp he with h | h
      · by_cases hig :
          should_ignore (joinPath (startSegs ++ rel ++ [name])) ignore_rules = true
        · rw [if_pos (by simpa using hig)] at h
          simp [walk_entries] at h
        · rw [if_neg (by simpa using hig)] at h
          exact ihsub (rel ++ [name]) e h
      · exact ihrest rel e h)

theorem collect_entries_inv (startSegs ignore_rules : List String)
    (output_filename : String) (fs : FSDir) (e : List String × TextResult)
    (h : e ∈ collect_entries startSegs ignore_rules output_filename fs) :
    EntryInv ignore_rules output_filename startSegs e :=
  walk_dir_inv ignore_rules output_filename startSegs fs [] e h

/-- No `.git`-named directory is ever descended into when the rule set
holds the `.git/` rule: every visited relative path extends the one the
walk entered with only by non-`.git` segments. -/
theorem visited_dir_no_git (ignore_rules : List String) (startSegs : List String)
    (hgit : ".git/" ∈ ignore_rules) :
    ∀ t : FSDir, ∀ rel v, v ∈ visited_dir ignore_rules startSegs rel t →
      ∃ tail, v = rel ++ tail ∧ ".git" ∉ tail :=
  @FSDir.rec
    (fun t => ∀ rel v, v ∈ visited_dir ignore_rules startSegs rel t →
      ∃ tail, v = rel ++ tail ∧ ".git" ∉ tail)
    (fun l => ∀ rel v, v ∈ visited_list ignore_rules startSegs rel l →
      ∃ tail, v = rel ++ tail ∧ ".git" ∉ tail)
    (fun dirs files ih => by
      intro rel v hv
      rw [visited_dir] at hv
      rcases List.mem_cons.mp hv with h | h
      · exact ⟨[], by simp [h], by simp⟩
      · exact ih rel v h)
    (fun rel v hv => by simp [visited_list] at hv)
    (fun name sub rest ihsub ihrest => by
      intro rel v hv
      rw [visited_list] at hv
      rcases List.mem_append.mp hv with h | h
      · by_cases hig :
          should_ignore (joinPath (startSegs ++ rel ++ [name])) ignore_rules = true
        · rw [if_pos (by simpa using hig)] at h
          simp at h
        · rw [if_neg (by simpa using hig)] at h
          obtain ⟨tail, hv2, htail⟩ := ihsub (rel ++ [name]) v h
          have hname : name ≠ ".git" := by
            intro hEq
            subst hEq
            apply hig
            refine should_ignore_true_of _ _ ".git/" hgit ?_
            refine rule_matches_of_mem_split _ _ (by decide) ".git" ?_ (by decide)
            have : startSegs ++ rel ++ [".git"] = (startSegs ++ rel) ++ [".git"] := by
              simp
            rw [this]
            exact mem_py_split_joinPath_concat (startSegs ++ rel) ".git" (by decide)
          refine ⟨name :: tail, by simp [hv2], ?_⟩
          simp only [List.mem_cons, not_or]
          exact ⟨fun hc => hname hc.symm, htail⟩
      · exact ihrest rel v h)

/-! ### Relating `collect_files` results to walk entries -/

theorem find_fault_none (entries : List (List String × TextResult))
    (h : find_fault entries = none) :
    ∀ e ∈ entries, ∃ c, e.2 = TextResult.content c := by
  intro e he
  unfold find_fault at h
  rw [List.head?_eq_none_iff] at h
  have := List.filterMap_eq_nil_iff.mp h e he
  cases hc : e.2 with
  | content c => exact ⟨c, rfl⟩
  | osFault err => rw [hc] at this; cases this

theorem find_fault_some_of_mem (entries : List (List String × TextResult))
    (e : List String × TextResult) (err : String)
    (he : e ∈ entries) (hf : e.2 = TextResult.osFault err) :
    ∃ err2, find_fault entries = some err2 := by
  unfold find_fault
  cases hfm : entries.filterMap (fun e =>
      match e.2 with
      | .osFault err => some err
      | .content _ => none) with
  | nil =>
    have := List.filterMap_eq_nil_iff.mp hfm e he
    rw [hf] at this
    cases this
  | cons a as => exact ⟨a, rfl⟩

/-- An `.ok` run's entries correspond one-for-one (same path, content
wrapped in `TextResult.content`) to the walk's raw entries. -/
theorem collect_files_ok_entries (startSegs ignore_rules : List String)
    (output_filename : String) (fs : FSDir)
    (s : List (List String × List (List String × String)))
    (h : collect_files startSegs ignore_rules output_filename fs = .ok s) :
    ∀ g ∈ s, ∀ e ∈ g.2,
      ∃ e0 ∈ collect_entries startSegs ignore_rules output_filename fs,
        e0.1 = e.1 ∧ e0.2 = TextResult.content e.2 := by
  unfold collect_files at h
  dsimp only at h
  cases hf : find_fault
      (walk_entries (walk_collect startSegs ignore_rules output_filename fs)) with
  | some err => rw [hf] at h; cases h
  | none =>
    rw [hf] at h
    have hs := Except.ok.inj h
    subst hs
    intro g hg e he
    obtain ⟨g0, hg0, hge⟩ := List.mem_map.mp hg
    subst hge
    obtain ⟨e0, he0, hee⟩ := List.mem_map.mp he
    have hmem : e0 ∈ collect_entries startSegs ignore_rules output_filename fs :=
      mem_walk_entries_of _ _ _ hg0 he0
    refine ⟨e0, hmem, ?_, ?_⟩
    · rw [← hee]
    · obtain ⟨c, hc⟩ := find_fault_none _ hf e0 hmem
      rw [← hee, hc]

/-- A pending uncaught `OSError` among the entries makes the whole run
abort: `collect_files` returns `.error`. -/
theorem collect_files_error_of_fault (startSegs ignore_rules : List String)
    (output_filename : String) (fs : FSDir) (e : List String × TextResult)
    (err : String)
    (he : e ∈ collect_entries startSegs ignore_rules output_filename fs)
    (hf : e.2 = TextResult.osFault err) :
    ∃ err2, collect_files startSegs ignore_rules output_filename fs =
      .error err2 := by
  obtain ⟨err2, h2⟩ := find_fault_some_of_mem _ e err he hf
  refine ⟨err2, ?_⟩
  unfold collect_files
  dsimp only
  unfold collect_entries at h2
  rw [h2]

/-- Whenever the walk processes a directory holding a file that passes the
guards, the corresponding entry is emitted: the denylist placeholder for a
denylisted name (for every `fd`, so the payload is never consulted), and
the `handle_read` outcome otherwise. -/
theorem walk_dir_emits (ignore_rules : List String) (output_filename : String)
    (startSegs rel : List String) (dirs : DirList)
    (files : List (String × FileData)) (fname : String) (fd : FileData)
    (hmem : (fname, fd) ∈ files)
    (hout : joinPath (rel ++ [fname]) ≠ output_filename)
    (hig : should_ignore (joinPath (rel ++ [fname])) ignore_rules = false) :
    (startSegs ++ rel ++ [fname],
      if is_nontext_file fname then TextResult.content nontext_placeholder
      else handle_read fd) ∈
      walk_entries (walk_dir ignore_rules output_filename startSegs rel
        (.mk dirs files)) := by
  have hpf : (startSegs ++ rel ++ [fname],
      if is_nontext_file fname then TextResult.content nontext_placeholder
      else handle_read fd) ∈
      process_files ignore_rules output_filename startSegs rel files := by
    refine List.mem_filterMap.mpr ⟨(fname, fd), hmem, ?_⟩
    dsimp only
    rw [if_neg hout, if_neg (by simp [hig])]
    by_cases hnt : is_nontext_file fname = true
    · rw [if_pos (by simp [hnt]), if_pos hnt]
    · rw [if_neg (by simpa using hnt), if_neg (by simpa using hnt)]
  rw [walk_dir, walk_entries_append]
  refine List.mem_append.mpr (Or.inl ?_)
  have hne : (process_files ignore_rules output_filename startSegs rel files).isEmpty
      = false := by
    cases hpe : process_files ignore_rules output_filename startSegs rel files with
    | nil => rw [hpe] at hpf; cases hpf
    | cons a as => simp
  rw [if_neg (by simp [hne])]
  simpa [walk_entries] using hpf

/-! ### The specification's depth-bounded Tree Walker

The source under `src/` contains no max-depth logic (the depth-limiting
variant of the script is not part of `src/`), so the walker below is
modelled from the specification (section 4.3): depth of the root is 0, a
directory deeper than the configured limit is pruned silently (no entry
for it and nothing beneath it), subdirectories are classified on their
relative path, and file entries carry content from the spec's Content
Reader. -/

/-- An entry of the specification's walker. -/
inductive SpecEntry where
  | dir (rel : List String)
  | file (rel : List String) (content : String)
deriving DecidableEq

/-- Modelled from the spec: the depth limit is "an optional non-negative
integer; if omitted, traversal is unbounded" (section 6). -/
def depth_ok (maxDepth : Option Nat) (d : Nat) : Bool :=
  match maxDepth with
  | none => true
  | some m => decide (d ≤ m)

/-- Modelled from the spec: the Content Reader (section 4.4) — missing
from `src/` — "reads raw bytes, removes embedded null bytes, decodes using
a permissive text codec", and converts an I/O fault into a placeholder
string naming the fault. -/
def spec_read (fd : FileData) : String :=
  match fd with
  | .bytes bs => ⟨utf8_decode_ignore (bs.filter (fun b => b ≠ 0))⟩
  | .unreadable err => "Read fault: " ++ err

mutual
/-- Modelled from the spec: the Tree Walker (section 4.3) — the
depth-limiting behaviour is missing from `src/`.  Per directory: prune
when deeper than the limit (no entry, no descent), classify each
subdirectory on its relative path, emit a Directory entry and recurse for
the survivors, then classify and emit each file (self-exclusion of the
output path, ignore rules, denylist placeholder, Content Reader). -/
def spec_walk_dir (ignore_rules : List String) (maxDepth : Option Nat)
    (output_filename : String) (rel : List String) : FSDir → List SpecEntry
  | .mk dirs files =>
    spec_walk_list ignore_rules maxDepth output_filename rel dirs ++
      files.filterMap (fun nf =>
        if joinPath (rel ++ [nf.1]) = output_filename then none
        else if should_ignore (joinPath (rel ++ [nf.1])) ignore_rules then none
        else if is_nontext_file nf.1 then
          some (SpecEntry.file (rel ++ [nf.1]) nontext_placeholder)
        else some (SpecEntry.file (rel ++ [nf.1]) (spec_read nf.2)))
/-- Modelled from the spec: subdirectory handling of the Tree Walker
(section 4.3 steps 3-4), with the depth bound of step 2 applied to the
candidate subdirectory before any entry is emitted for it. -/
def spec_walk_list (ignore_rules : List String) (maxDepth : Option Nat)
    (output_filename : String) (rel : List String) : DirList → List SpecEntry
  | .nil => []
  | .cons name sub rest =>
    (if should_ignore (joinPath (rel ++ [name])) ignore_rules then []
     else if depth_ok maxDepth (rel ++ [name]).length then
       SpecEntry.dir (rel ++ [name]) ::
         spec_walk_dir ignore_rules maxDepth output_filename (rel ++ [name]) sub
     else []) ++
      spec_walk_list ignore_rules maxDepth output_filename rel rest
end

/-- Modelled from the spec: a full run of the Tree Walker from the root
(depth 0). -/
def spec_walk (ignore_rules : List String) (maxDepth : Option Nat)
    (output_filename : String) (fs : FSDir) : List SpecEntry :=
  spec_walk_dir ignore_rules maxDepth output_filename [] fs

/-- Depth bound invariant of the specification walker: at a visit depth
within the limit, every emitted directory entry stays within the limit and
every file entry is at most one deeper. -/
theorem spec_walk_dir_depth (ignore_rules : List String) (m : Nat)
    (output_filename : String) :
    ∀ t : FSDir, ∀ rel, rel.length ≤ m →
      ∀ e ∈ spec_walk_dir ignore_rules (some m) output_filename rel t,
        (match e with
         | SpecEntry.dir p => p.length ≤ m
         | SpecEntry.file p _ => p.length ≤ m + 1) :=
  @FSDir.rec
    (fun t => ∀ rel, rel.length ≤ m →
      ∀ e ∈ spec_walk_dir ignore_rules (some m) output_filename rel t,
        (match e with
         | SpecEntry.dir p => p.length ≤ m
         | SpecEntry.file p _ => p.length ≤ m + 1))
    (fun l => ∀ rel, rel.length ≤ m →
      ∀ e ∈ spec_walk_list ignore_rules (some m) output_filename rel l,
        (match e with
         | SpecEntry.dir p => p.length ≤ m
         | SpecEntry.file p _ => p.length ≤ m + 1))
    (fun dirs files ihdirs => by
      intro rel hrel e he
      rw [spec_walk_dir] at he
      rcases List.mem_append.mp he with h | h
      · exact ihdirs rel hrel e h
      · obtain ⟨nf, _, heq⟩ := List.mem_filterMap.mp h
        by_cases h1 : joinPath (rel ++ [nf.1]) = output_filename
        · rw [if_pos h1] at heq; cases heq
        rw [if_neg h1] at heq
        by_cases h2 : should_ignore (joinPath (rel ++ [nf.1])) ignore_rules = true
        · rw [if_pos (by simp [h2])] at heq; cases heq
        rw [if_neg (by simpa using h2)] at heq
        by_cases h3 : is_nontext_file nf.1 = true
        · rw [if_pos (by simp [h3])] at heq
          cases heq
          simpa using hrel
        · rw [if_neg (by simpa using h3)] at heq
          cases heq
          simpa using hrel)
    (fun rel hrel e he => by simp [spec_walk_list] at he)
    (fun name sub rest ihsub ihrest => by
      intro rel hrel e he
      rw [spec_walk_list] at he
      rcases List.mem_append.mp he with h | h
      · by_cases hig : should_ignore (joinPath (rel ++ [name])) ignore_rules = true
        · rw [if_pos (by simpa using hig)] at h
          cases h
        rw [if_neg (by simpa using hig)] at h
        by_cases hd : depth_ok (some m) (rel ++ [name]).length = true
        · rw [if_pos (by simpa using hd)] at h
          have hlen : (rel ++ [name]).length ≤ m := by
            simpa [depth_ok] using hd
          rcases List.mem_cons.mp h with h2 | h2
          · subst h2; simpa using hlen
          · exact ihsub (rel ++ [name]) hlen e h2
        · rw [if_neg (by simpa using hd)] at h
          cases h
      · exact ihrest rel hrel e h)

/-! ### Concrete directory trees used by the claim-level theorems -/

/-- A start directory holding one subdirectory `docs` with one file
`docs/readme.md` (bytes of "hi"). -/
def fsC1 : FSDir :=
  .mk (.cons "docs" (.mk .nil [("readme.md", .bytes [104, 105])]) .nil) []

/-- A start directory holding a `.git` directory (with a file inside) and
one ordinary file `a.txt`. -/
def fsC3 : FSDir :=
  .mk (.cons ".git" (.mk .nil [("config", .bytes [120])]) .nil)
    [("a.txt", .bytes [104])]

/-- A start directory holding `a.txt` and a file named like the output
report `out.txt`. -/
def fsC4 : FSDir :=
  .mk .nil [("a.txt", .bytes [104]), ("out.txt", .bytes [120])]

/-- A start directory holding one denylisted file whose payload is not
even readable. -/
def fsC5 : FSDir :=
  .mk .nil [("img.png", .unreadable "boom")]

/-- Nested directories `a/b/c/d` with no files. -/
def fsDepth : FSDir :=
  .mk (.cons "a" (.mk (.cons "b" (.mk (.cons "c" (.mk (.cons "d" (.mk .nil [])
    .nil) []) .nil) []) .nil) []) .nil) []

/-- A start directory holding one text file whose bytes contain the
invalid UTF-8 byte 0xFF between "h" and "i". -/
def fsC7 : FSDir :=
  .mk .nil [("a.txt", .bytes [104, 255, 105])]

/-- A start directory holding an unreadable text file followed by a
readable one. -/
def fsC8 : FSDir :=
  .mk .nil [("a.txt", .unreadable "PermissionError: [Errno 13] Permission denied"),
    ("b.txt", .bytes [104])]

/-- A start directory holding one text file whose bytes contain an
embedded null byte between "h" and "i". -/
def fsC9 : FSDir :=
  .mk .nil [("a.txt", .bytes [104, 0, 105])]

/-- A start directory holding one ordinary text file. -/
def fsC10 : FSDir :=
  .mk .nil [("n.txt", .bytes [110])]

/-! ### Claim C1 -/

/-- C1 (counterexample): the relative path "docs" matches the glob rule
"docs" of the rule set, yet the descendant file entry
`proj/docs/readme.md` — whose path relative to the start is
"docs/readme.md", an extension of "docs" — appears in the result of
`collect_files`.  The directory pruning tested the start-joined path
"proj/docs", which the rule does not match, so the subtree of a
rule-matching directory is traversed and its files survive the per-file
check.  This refutes the claim that no descendant of a rule-matching path
ever appears. -/
theorem c1_counterexample :
    should_ignore "docs" ["docs", ".git/"] = true ∧
    should_ignore "proj/docs" ["docs", ".git/"] = false ∧
    collect_files ["proj"] ["docs", ".git/"] "out.txt" fsC1 =
      .ok [(["proj", "docs"], [(["proj", "docs", "readme.md"], "hi")])] ∧
    joinPath ((["proj", "docs", "readme.md"] : List String).drop 1) =
      "docs/readme.md" ∧
    "docs/readme.md" = "docs" ++ "/readme.md" :=
  ⟨by decide, by decide, rfl, by decide, rfl⟩

/-- C1 (amended): every file entry of a run has a relative path that
itself matches no ignore rule (so rule-matching files are skipped); in
particular, for every directory-only rule (ending in `/`) no segment of
any entry's relative path equals the rule's base, so a directory matching
such a rule contributes neither itself nor descendants.  For non-directory
(glob) rules, however, directory pruning tests the start-joined path
rather than the relative path, so a glob rule matching a directory's
relative path does not keep that directory's descendants out (see the
counterexample). -/
theorem c1_entries_not_ignored (startSegs ignore_rules : List String)
    (output_filename : String) (fs : FSDir) (e : List String × TextResult)
    (he : e ∈ collect_entries startSegs ignore_rules output_filename fs) :
    should_ignore (joinPath (e.1.drop startSegs.length)) ignore_rules = false ∧
    ∀ rule ∈ ignore_rules, ends_with_slash rule = true →
      ∀ part ∈ py_split (joinPath (e.1.drop startSegs.length)),
        part ≠ rstrip_slash rule := by
  obtain ⟨r, fname, fd, h1, _, h3, _⟩ := collect_entries_inv _ _ _ _ _ he
  have hdrop : e.1.drop startSegs.length = r ++ [fname] := by
    rw [h1, List.append_assoc, List.drop_left]
  rw [hdrop]
  refine ⟨h3, ?_⟩
  intro rule hr hslash part hp
  exact not_rule_matches_dir _ _ (should_ignore_false_rule _ _ _ h3 hr) hslash part hp

/-- C1 (witness): the amended statement applied to the entry emitted by
the run of the counterexample. -/
theorem c1_amended_witness :
    should_ignore (joinPath ((["proj", "docs", "readme.md"] : List String).drop
      (["proj"] : List String).length)) ["docs", ".git/"] = false ∧
    ∀ rule ∈ ["docs", ".git/"], ends_with_slash rule = true →
      ∀ part ∈ py_split (joinPath ((["proj", "docs", "readme.md"] : List String).drop
        (["proj"] : List String).length)), part ≠ rstrip_slash rule :=
  c1_entries_not_ignored ["proj"] ["docs", ".git/"] "out.txt" fsC1
    (["proj", "docs", "readme.md"], TextResult.content "hi") (by decide)

/-! ### Claim C2 -/

/-- C2: for every path and every rule ending in `/`, `should_ignore`
holds exactly when some `/`-separated segment of the path equals the rule
with its trailing slashes stripped — exact segment equality at any
nesting depth, not a glob match. -/
theorem c2_dir_rule_iff (path rule : String)
    (hslash : ends_with_slash rule = true) :
    should_ignore path [rule] = true ↔
      ∃ part ∈ py_split path, part = rstrip_slash rule := by
  unfold should_ignore rule_matches
  simp [hslash, List.any_eq_true]

/-- C2 (witness): the rule "build/" ignores "x/build/y.txt", whose middle
segment is "build". -/
theorem c2_witness :
    ends_with_slash "build/" = true ∧
    (should_ignore "x/build/y.txt" ["build/"] = true ↔
      ∃ part ∈ py_split "x/build/y.txt", part = rstrip_slash "build/") :=
  ⟨by decide, c2_dir_rule_iff "x/build/y.txt" "build/" (by decide)⟩

/-! ### Claim C3 -/

/-- C3: `load_gitignore_rules` always appends ".git/" as the last rule
(even for a missing or empty rules file); whenever ".git/" is among the
rules, no entry of an `.ok` run has a relative path containing a ".git"
segment, and no visited (descended-into) directory path contains a ".git"
segment — `.git` directories and their subtrees are never touched. -/
theorem c3_git_always_excluded :
    (∀ fileLines, (load_gitignore_rules fileLines).getLast? = some ".git/") ∧
    (∀ startSegs ignore_rules output_filename fs s,
      ".git/" ∈ ignore_rules →
      collect_files startSegs ignore_rules output_filename fs = .ok s →
      ∀ g ∈ s, ∀ e ∈ g.2,
        ∀ part ∈ py_split (joinPath (e.1.drop startSegs.length)),
          part ≠ ".git") ∧
    (∀ startSegs ignore_rules fs v,
      ".git/" ∈ ignore_rules →
      v ∈ walk_visited startSegs ignore_rules fs → ".git" ∉ v) := by
  refine ⟨?_, ?_, ?_⟩
  · intro fileLines
    unfold load_gitignore_rules
    cases fileLines <;> exact List.getLast?_concat _
  · intro startSegs ignore_rules output_filename fs s hgit hok g hg e he
    obtain ⟨e0, he0, hp, _⟩ := collect_files_ok_entries _ _ _ _ _ hok g hg e he
    obtain ⟨r, fname, fd, h1, _, h3, _⟩ := collect_entries_inv _ _ _ _ _ he0
    have hdrop : e.1.drop startSegs.length = r ++ [fname] := by
      rw [← hp, h1, List.append_assoc, List.drop_left]
    rw [hdrop]
    intro part hpart
    have hne := not_rule_matches_dir _ _ (should_ignore_false_rule _ _ _ h3 hgit)
      (by decide) part hpart
    simpa [(by decide : rstrip_slash ".git/" = ".git")] using hne
  · intro startSegs ignore_rules fs v hgit hv
    obtain ⟨tail, hveq, htail⟩ :=
      visited_dir_no_git ignore_rules startSegs hgit fs [] v hv
    simpa [hveq] using htail

/-- C3 (witness): the three parts applied to a concrete rules file and a
concrete tree holding a `.git` directory. -/
theorem c3_witness :
    (load_gitignore_rules (some ["node_modules", "", "# comment"])).getLast? =
      some ".git/" ∧
    (∀ part ∈ py_split (joinPath ((["proj", "a.txt"] : List String).drop
      (["proj"] : List String).length)), part ≠ ".git") ∧
    ".git" ∉ ([] : List String) :=
  ⟨c3_git_always_excluded.1 (some ["node_modules", "", "# comment"]),
   c3_git_always_excluded.2.1 ["proj"] [".git/"] "out.txt" fsC3
     [(["proj"], [(["proj", "a.txt"], "h")])] (by decide) rfl
     (["proj"], [(["proj", "a.txt"], "h")]) (by decide)
     (["proj", "a.txt"], "h") (by decide),
   c3_git_always_excluded.2.2 ["proj"] [".git/"] fsC3 [] (by decide) (by decide)⟩

/-! ### Claim C4 -/

/-- C4: the result of an `.ok` run never contains a file entry whose path
relative to the traversal root equals the output filename (the tool's own
report is self-excluded). -/
theorem c4_self_exclusion (startSegs ignore_rules : List String)
    (output_filename : String) (fs : FSDir)
    (s : List (List String × List (List String × String)))
    (hok : collect_files startSegs ignore_rules output_filename fs = .ok s) :
    ∀ g ∈ s, ∀ e ∈ g.2,
      joinPath (e.1.drop startSegs.length) ≠ output_filename := by
  intro g hg e he
  obtain ⟨e0, he0, hp, _⟩ := collect_files_ok_entries _ _ _ _ _ hok g hg e he
  obtain ⟨r, fname, fd, h1, h2, _, _⟩ := collect_entries_inv _ _ _ _ _ he0
  have hdrop : e.1.drop startSegs.length = r ++ [fname] := by
    rw [← hp, h1, List.append_assoc, List.drop_left]
  rw [hdrop]
  exact h2

/-- C4 (witness): a run over a tree that contains a file named like the
output report; the emitted entry is `a.txt`, never `out.txt`. -/
theorem c4_witness :
    joinPath ((["proj", "a.txt"] : List String).drop
      (["proj"] : List String).length) ≠ "out.txt" :=
  c4_self_exclusion ["proj"] [".git/"] "out.txt" fsC4
    [(["proj"], [(["proj", "a.txt"], "h")])] rfl
    (["proj"], [(["proj", "a.txt"], "h")]) (by decide)
    (["proj", "a.txt"], "h") (by decide)

/-! ### Claim C5 -/

/-- C5: every emitted entry whose file name is denylisted (lowercased
extension in the non-text list, or name `get-pip.py` up to case) carries
the fixed placeholder as content; and whenever the walk processes a
directory holding such a file that passes the guards, the placeholder
entry is emitted — for an arbitrary payload `fd`, including an unreadable
one, so the file's bytes are never read into the result. -/
theorem c5_denylist_placeholder :
    (∀ startSegs ignore_rules output_filename fs
      (e : List String × TextResult),
      e ∈ collect_entries startSegs ignore_rules output_filename fs →
      ∃ pre fname, e.1 = pre ++ [fname] ∧
        (is_nontext_file fname = true →
          e.2 = TextResult.content nontext_placeholder)) ∧
    (∀ ignore_rules output_filename startSegs rel dirs files fname fd,
      (fname, fd) ∈ files →
      joinPath (rel ++ [fname]) ≠ output_filename →
      should_ignore (joinPath (rel ++ [fname])) ignore_rules = false →
      is_nontext_file fname = true →
      (startSegs ++ rel ++ [fname], TextResult.content nontext_placeholder) ∈
        walk_entries (walk_dir ignore_rules output_filename startSegs rel
          (.mk dirs files))) := by
  constructor
  · intro startSegs ignore_rules output_filename fs e he
    obtain ⟨r, fname, fd, h1, _, _, h4⟩ := collect_entries_inv _ _ _ _ _ he
    refine ⟨startSegs ++ r, fname, h1, ?_⟩
    intro hnt
    rcases h4 with ⟨_, hc⟩ | ⟨hnf, _⟩
    · exact hc
    · rw [hnt] at hnf; cases hnf
  · intro ignore_rules output_filename startSegs rel dirs files fname fd
      hmem hout hig hnt
    have hem := walk_dir_emits ignore_rules output_filename startSegs rel dirs
      files fname fd hmem hout hig
    rw [if_pos (by simp [hnt])] at hem
    exact hem

/-- C5 (witness): a denylisted file whose payload is unreadable still
yields the placeholder entry (its bytes are never consulted). -/
theorem c5_witness :
    (∃ pre fname, (["proj", "img.png"] : List String) = pre ++ [fname] ∧
      (is_nontext_file fname = true →
        TextResult.content nontext_placeholder =
          TextResult.content nontext_placeholder)) ∧
    (["proj"] ++ [] ++ ["img.png"], TextResult.content nontext_placeholder) ∈
      walk_entries (walk_dir [".git/"] "out.txt" ["proj"] []
        (.mk .nil [("img.png", FileData.unreadable "boom")])) :=
  ⟨c5_denylist_placeholder.1 ["proj"] [".git/"] "out.txt" fsC5
     (["proj", "img.png"], TextResult.content nontext_placeholder) (by decide),
   c5_denylist_placeholder.2 [".git/"] "out.txt" ["proj"] [] .nil
     [("img.png", FileData.unreadable "boom")] "img.png"
     (FileData.unreadable "boom") (by decide) (by decide) (by decide) (by decide)⟩

/-! ### Claim C6 (spec-modelled: depth limiting is absent from src/) -/

/-- C6: with a configured max depth `m`, the specification walker emits no
entry for a directory deeper than `m` (relative to the root) nor for
anything beneath it (file entries sit at most one level below an emitted
directory), while the scenario `a/b/c/d` with max depth 2 yields exactly
the entries `a` and `a/b`. -/
theorem c6_depth_pruning :
    (∀ ignore_rules m output_filename fs e,
      e ∈ spec_walk ignore_rules (some m) output_filename fs →
      (match e with
       | SpecEntry.dir p => p.length ≤ m
       | SpecEntry.file p _ => p.length ≤ m + 1)) ∧
    spec_walk [".git/"] (some 2) "out.txt" fsDepth =
      [SpecEntry.dir ["a"], SpecEntry.dir ["a", "b"]] := by
  constructor
  · intro ignore_rules m output_filename fs e he
    exact spec_walk_dir_depth ignore_rules m output_filename fs [] (Nat.zero_le m)
      e he
  · rfl

/-- C6 (witness): the depth bound applied to the `a/b` entry of the
scenario run. -/
theorem c6_witness : (["a", "b"] : List String).length ≤ 2 :=
  c6_depth_pruning.1 [".git/"] 2 "out.txt" fsDepth (SpecEntry.dir ["a", "b"])
    (by decide)

/-! ### Claim C7 -/

/-- C7 (counterexample): the file bytes `68 FF 69` contain the invalid
UTF-8 byte `FF`, yet the emitted content is "hi" — the invalid byte was
silently dropped (`errors='ignore'`), and no replacement marker U+FFFD was
substituted for it.  This refutes the claim that replacement markers are
substituted for invalid byte sequences (the run indeed does not abort). -/
theorem c7_counterexample :
    collect_files ["proj"] [".git/"] "out.txt" fsC7 =
      .ok [(["proj"], [(["proj", "a.txt"], "hi")])] ∧
    utf8_decode_ignore [104, 255, 105] = ['h', 'i'] ∧
    (['h', 'i'].contains (Char.ofNat 0xFFFD)) = false :=
  ⟨rfl, by decide, by decide⟩

/-- C7 (amended): for every text file with undecodable byte sequences the
entry is still produced and the run never aborts because of the decode
fault — the read with `errors='ignore'` is total — but its content is the
permissive decode with the invalid sequences dropped, not marked. -/
theorem c7_amended :
    (∀ bs, py_open_read_utf8_ignore (FileData.bytes bs) =
      ReadOutcome.ok ⟨utf8_decode_ignore bs⟩) ∧
    (∀ ignore_rules output_filename startSegs rel dirs files fname bs,
      (fname, FileData.bytes bs) ∈ files →
      joinPath (rel ++ [fname]) ≠ output_filename →
      should_ignore (joinPath (rel ++ [fname])) ignore_rules = false →
      is_nontext_file fname = false →
      (startSegs ++ rel ++ [fname],
        TextResult.content ⟨utf8_decode_ignore bs⟩) ∈
        walk_entries (walk_dir ignore_rules output_filename startSegs rel
          (.mk dirs files))) := by
  refine ⟨fun bs => rfl, ?_⟩
  intro ignore_rules output_filename startSegs rel dirs files fname bs
    hmem hout hig hnt
  have hem := walk_dir_emits ignore_rules output_filename startSegs rel dirs
    files fname (FileData.bytes bs) hmem hout hig
  rw [if_neg (by simp [hnt])] at hem
  exact hem

/-- C7 (witness): the amended statement at the counterexample's input. -/
theorem c7_witness :
    (["proj"] ++ [] ++ ["a.txt"],
      TextResult.content ⟨utf8_decode_ignore [104, 255, 105]⟩) ∈
      walk_entries (walk_dir [".git/"] "out.txt" ["proj"] []
        (.mk .nil [("a.txt", FileData.bytes [104, 255, 105])])) :=
  c7_amended.2 [".git/"] "out.txt" ["proj"] [] .nil
    [("a.txt", FileData.bytes [104, 255, 105])] "a.txt" [104, 255, 105]
    (by decide) (by decide) (by decide) (by decide)

/-! ### Claim C8 -/

/-- C8 (counterexample): `fsC8` holds an unreadable text file `a.txt` and
a readable `b.txt`; instead of emitting an entry with a fault-naming
placeholder and continuing, the run aborts — the `except` clause catches
only `UnicodeDecodeError`, so the `OSError` propagates out of
`collect_files` and no structure at all is produced (not even for
`b.txt`). -/
theorem c8_counterexample :
    collect_files ["proj"] [".git/"] "out.txt" fsC8 =
      .error "PermissionError: [Errno 13] Permission denied" :=
  rfl

/-- C8 (amended): a text file that cannot be opened or read makes the
whole traversal abort: whenever a directory's files include an unreadable
one that passes the guards, `collect_files` returns an error and emits no
structure (only decode faults would be caught, and those cannot occur). -/
theorem c8_amended (startSegs ignore_rules : List String)
    (output_filename : String) (dirs : DirList)
    (files : List (String × FileData)) (fname err : String)
    (hmem : (fname, FileData.unreadable err) ∈ files)
    (hout : joinPath [fname] ≠ output_filename)
    (hig : should_ignore (joinPath [fname]) ignore_rules = false)
    (hnt : is_nontext_file fname = false) :
    ∃ err2, collect_files startSegs ignore_rules output_filename
      (.mk dirs files) = .error err2 := by
  have hem := walk_dir_emits ignore_rules output_filename startSegs [] dirs
    files fname (FileData.unreadable err) hmem hout hig
  rw [if_neg (by simp [hnt])] at hem
  exact collect_files_error_of_fault startSegs ignore_rules output_filename
    (.mk dirs files) _ err hem rfl

/-- C8 (witness): the amended statement at the counterexample's input. -/
theorem c8_witness :
    ∃ err2, collect_files ["proj"] [".git/"] "out.txt"
      (.mk .nil [("a.txt",
          FileData.unreadable "PermissionError: [Errno 13] Permission denied"),
        ("b.txt", FileData.bytes [104])]) = .error err2 :=
  c8_amended ["proj"] [".git/"] "out.txt" .nil
    [("a.txt", FileData.unreadable "PermissionError: [Errno 13] Permission denied"),
      ("b.txt", FileData.bytes [104])]
    "a.txt" "PermissionError: [Errno 13] Permission denied"
    (by decide) (by decide) (by decide) (by decide)

/-! ### Claim C9 -/

/-- C9 (counterexample): the file bytes `68 00 69` contain an embedded
null byte, and the stored content is "h", null, "i" — the null character
is present in the result, so no null-byte removal happened before
decoding.  This refutes the claim that the stored content contains no null
characters. -/
theorem c9_counterexample :
    collect_files ["proj"] [".git/"] "out.txt" fsC9 =
      .ok [(["proj"], [(["proj", "a.txt"], ⟨['h', Char.ofNat 0, 'i']⟩)])] ∧
    (['h', Char.ofNat 0, 'i'].contains (Char.ofNat 0)) = true :=
  ⟨rfl, by decide⟩

/-- C9 (amended): the content reader performs no null-byte removal: the
stored content of a read text file is exactly the permissive decode of the
raw bytes, and that decode preserves null bytes as null characters. -/
theorem c9_amended :
    (∀ bs, handle_read (FileData.bytes bs) =
      TextResult.content ⟨utf8_decode_ignore bs⟩) ∧
    (∀ bs, utf8_decode_ignore (0 :: bs) =
      Char.ofNat 0 :: utf8_decode_ignore bs) ∧
    utf8_decode_ignore [104, 0, 105] = ['h', Char.ofNat 0, 'i'] :=
  ⟨fun bs => rfl, fun bs => rfl, by decide⟩

/-! ### Claim C10 -/

/-- C10: the read — `open(..., encoding='utf-8', errors='ignore')` plus
`read()` — never raises `UnicodeDecodeError` (the `ignore` handler makes
decoding total), so the `except UnicodeDecodeError` handler is
unreachable: the content of every text file is the direct decode of its
bytes, and every emitted content string is either the denylist placeholder
or such a decode — the decode-error placeholder is never produced by the
handler for any input. -/
theorem c10_handler_unreachable :
    (∀ fd, py_open_read_utf8_ignore fd ≠ ReadOutcome.unicodeError) ∧
    (∀ bs, handle_read (FileData.bytes bs) =
      TextResult.content ⟨utf8_decode_ignore bs⟩) ∧
    (∀ startSegs ignore_rules output_filename fs
      (e : List String × TextResult) (s : String),
      e ∈ collect_entries startSegs ignore_rules output_filename fs →
      e.2 = TextResult.content s →
      s = nontext_placeholder ∨ ∃ bs, s = ⟨utf8_decode_ignore bs⟩) := by
  refine ⟨fun fd => ?_, fun bs => rfl, ?_⟩
  · cases fd <;> simp [py_open_read_utf8_ignore]
  · intro startSegs ignore_rules output_filename fs e s he hc
    obtain ⟨r, fname, fd, _, _, _, h4⟩ := collect_entries_inv _ _ _ _ _ he
    rcases h4 with ⟨_, hcc⟩ | ⟨_, hcc⟩
    · left
      rw [hcc] at hc
      exact (TextResult.content.inj hc.symm)
    · right
      cases fd with
      | bytes bs =>
        refine ⟨bs, ?_⟩
        rw [hcc] at hc
        simp only [handle_read, py_open_read_utf8_ignore] at hc
        exact (TextResult.content.inj hc.symm)
      | unreadable err =>
        rw [hcc] at hc
        simp [handle_read, py_open_read_utf8_ignore] at hc

/-- C10 (witness): the third part applied to the entry of a concrete
run. -/
theorem c10_witness :
    ("n" : String) = nontext_placeholder ∨
      ∃ bs, ("n" : String) = ⟨utf8_decode_ignore bs⟩ :=
  c10_handler_unreachable.2.2 ["proj"] [".git/"] "out.txt" fsC10
    (["proj", "n.txt"], TextResult.content "n") "n" (by decide) rfl

end Collect
